import Mathlib

/-!
Verification development for the batch execution core of the fast-yaml CLI
(crate fast-yaml-cli): file discovery (src/discovery.rs), the smart file
reader (src/batch/reader.rs), the batch processor (src/batch/processor.rs)
and result aggregation (src/batch/result.rs).

The Rust code is shallowly embedded: filesystem access, the globset/glob
matchers, the directory walker of the ignore crate, and the external YAML
formatter are modelled as explicit oracles (plain Lean functions supplied
as structure fields), while every algorithm owned by the crate itself
(filtering, deduplication, stream limits, outcome decision, atomic-rename
write, counter aggregation) is translated function by function from the
source.
-/

namespace FastYaml

/-- A component of a filesystem path, mirroring Rust std::path::Component
(the Prefix variant for Windows drive prefixes is omitted). -/
inductive Component where
  | rootDir
  | curDir
  | parentDir
  | normal (s : String)
deriving DecidableEq, Repr

/-- A filesystem path, as its list of components (what Rust
Path::components yields after its lightweight normalisation). -/
abbrev FsPath := List Component

/-- Rust Path::file_name: the final component of the path, when it is a
normal component. -/
def fileName (p : FsPath) : Option String :=
  match p.getLast? with
  | some (Component.normal s) => some s
  | _ => none

/-- Index of the last occurrence of a dot in a character list, scanning
with explicit indices (helper for Rust Path::file_stem semantics). -/
def lastDotIdxFrom : List Char → Nat → Option Nat
  | [], _ => none
  | c :: cs, i =>
    match lastDotIdxFrom cs (i + 1) with
    | some j => some j
    | none => if c = '.' then some i else none

/-- Rust Path::file_stem on a file name: the portion before the last dot,
except that a dot in the leading position does not begin an extension
(".hidden" is its own stem). -/
def fileStem (name : String) : String :=
  let cs := name.toList
  match lastDotIdxFrom cs 0 with
  | some j => if j = 0 then name else String.mk (cs.take j)
  | none => name

/-- Rust Path::with_extension with a nonempty extension, on a file name:
replaces everything after the last dot (or appends when there is no
extension). -/
def withExtensionName (name ext : String) : String :=
  fileStem name ++ "." ++ ext

/-- Rust Path::with_extension lifted to a whole path: the final normal
component has its extension replaced; a path without a file name is
returned unchanged. -/
def withExtension (p : FsPath) (ext : String) : FsPath :=
  match p.getLast? with
  | some (Component.normal s) => p.dropLast ++ [Component.normal (withExtensionName s ext)]
  | _ => p

/-- A compiled glob set (globset::GlobSet), modelled as the list of its
compiled per-pattern matchers; the pattern language itself is external to
the crate. -/
abbrev GlobSet (α : Type) := List (α → Bool)

/-- globset::GlobSet::is_match: some pattern of the set matches. -/
def GlobSet.is_match (gs : GlobSet α) (x : α) : Bool :=
  gs.any (fun g => g x)

/-- FileDiscovery (src/discovery.rs): the compiled include matcher (run
against file names) and exclude matcher (run against full paths). The
DiscoveryConfig fields it also carries only parameterise the external
directory walker and are folded into the walker oracle below. -/
structure FileDiscovery where
  include_matcher : GlobSet String
  exclude_matcher : GlobSet FsPath

/-- FileDiscovery::should_include: exclude patterns are checked first
against the full path; then include patterns against the file name, a
missing file name failing the check (Option::is_some_and). -/
def FileDiscovery.should_include (fd : FileDiscovery) (path : FsPath) : Bool :=
  if fd.exclude_matcher.is_match path then
    false
  else
    match fileName path with
    | some name => fd.include_matcher.is_match name
    | none => false

/-- C5: should_include returns true iff no exclude pattern matches the
full path and some include pattern matches the basename; exclude is
evaluated first and wins when both match. -/
theorem should_include_iff (fd : FileDiscovery) (p : FsPath) :
    fd.should_include p = true ↔
      ((∀ g ∈ fd.exclude_matcher, g p = false) ∧
        ∃ name, fileName p = some name ∧ ∃ g ∈ fd.include_matcher, g name = true) := by
  unfold FileDiscovery.should_include GlobSet.is_match
  constructor
  · intro h
    by_cases hex : fd.exclude_matcher.any (fun g => g p) = true
    · simp [hex] at h
    · rw [Bool.not_eq_true] at hex
      simp only [hex, Bool.false_eq_true, if_false] at h
      refine ⟨?_, ?_⟩
      · intro g hg
        have := (List.any_eq_false).mp hex g hg
        simpa using this
      · cases hname : fileName p with
        | none => rw [hname] at h; simp at h
        | some name =>
          rw [hname] at h
          rcases List.any_eq_true.mp h with ⟨g, hg, hgp⟩
          exact ⟨name, rfl, g, hg, by simpa using hgp⟩
  · rintro ⟨hex, name, hname, g, hg, hgname⟩
    have hexf : fd.exclude_matcher.any (fun g => g p) = false := by
      apply List.any_eq_false.mpr
      intro g' hg'
      simp [hex g' hg']
    simp only [hexf, Bool.false_eq_true, if_false, hname]
    exact List.any_eq_true.mpr ⟨g, hg, by simpa using hgname⟩

/-- Kind of an underlying std::io::Error, as far as the crate inspects it
(ErrorKind::NotFound, ErrorKind::PermissionDenied, anything else). -/
inductive IoErrKind where
  | notFound
  | permissionDenied
  | other
deriving DecidableEq, Repr

/-- ProcessingError (src/batch/error.rs), with the payloads the crate
itself distinguishes. -/
inductive ProcessingError where
  | readError (e : IoErrKind)
  | utf8Error
  | parseError (msg : String)
  | formatError (msg : String)
  | writeError (e : IoErrKind)
  | mmapError (e : IoErrKind)
deriving DecidableEq, Repr

/-- The visible file store: which regular files exist and their byte
content (content as a string, since the crate only writes strings). -/
def Store := FsPath → Option String

/-- Effect of creating or truncating a file (std::fs::write, on success). -/
def setFile (st : Store) (p : FsPath) (content : String) : Store :=
  fun q => if q = p then some content else st q

/-- Effect of std::fs::rename from src onto dst (atomic replacement on
success). -/
def renameFile (st : Store) (src dst : FsPath) : Store :=
  fun q => if q = src then none else if q = dst then st src else st q

/-- Failure oracle for the two filesystem calls of write_file_atomic:
whether std::fs::write at a path fails, and whether std::fs::rename of a
pair fails. -/
structure WriteOracle where
  writeErrAt : FsPath → Option IoErrKind
  renameErr : FsPath → FsPath → Option IoErrKind

/-- BatchProcessor::write_file_atomic (src/batch/processor.rs lines
189-197): the temp path is path.with_extension("tmp"), the content is
written there with std::fs::write, then the temp is renamed over the
target; each failure is mapped to WriteError and the temp file is not
removed on a rename failure. -/
def write_file_atomic (w : WriteOracle) (st : Store) (path : FsPath) (content : String) :
    Except ProcessingError Unit × Store :=
  let temp_path := withExtension path "tmp"
  match w.writeErrAt temp_path with
  | some e => (Except.error (ProcessingError.writeError e), st)
  | none =>
    let st1 := setFile st temp_path content
    match w.renameErr temp_path path with
    | some e => (Except.error (ProcessingError.writeError e), st1)
    | none => (Except.ok (), renameFile st1 temp_path path)

/-- A write oracle on which every write and rename succeeds. -/
def noWriteFailures : WriteOracle :=
  { writeErrAt := fun _ => none, renameErr := fun _ _ => none }

/-- The target dir/a.yaml used to exhibit the temp-name collision. -/
def targetYaml : FsPath := [Component.normal "dir", Component.normal "a.yaml"]

/-- The sibling target dir/a.yml: a distinct file in the same directory. -/
def targetYml : FsPath := [Component.normal "dir", Component.normal "a.yml"]

/-- The fixed temp path dir/a.tmp both targets above are mapped to. -/
def tempTmp : FsPath := [Component.normal "dir", Component.normal "a.tmp"]

/-- A store whose only file is a pre-existing sibling dir/a.tmp. -/
def storeWithSiblingTmp : Store :=
  fun q => if q = tempTmp then some "precious sibling data" else none

/-- C1: the temp file name of an in-place rewrite is not unique per
attempt: it is the fixed name path.with_extension("tmp"), so the two
distinct sibling targets dir/a.yaml and dir/a.yml share the temp path
dir/a.tmp, and a rewrite of dir/a.yaml silently destroys a pre-existing
sibling file dir/a.tmp (its content is gone from the final store). -/
theorem write_file_atomic_fixed_tmp_name :
    withExtension targetYaml "tmp" = tempTmp ∧
    withExtension targetYml "tmp" = tempTmp ∧
    targetYaml ≠ targetYml ∧
    (write_file_atomic noWriteFailures storeWithSiblingTmp targetYaml "new content").1 =
      Except.ok () ∧
    (write_file_atomic noWriteFailures storeWithSiblingTmp targetYaml "new content").2
      targetYaml = some "new content" ∧
    (write_file_atomic noWriteFailures storeWithSiblingTmp targetYaml "new content").2
      tempTmp = none := by
  refine ⟨by decide, by decide, by decide, rfl, by decide, by decide⟩

/-- FileOutcome (src/batch/result.rs); durations are not modelled, the
claims under verification never mention them. -/
inductive FileOutcome where
  | formatted (changed : Bool)
  | unchanged
  | skipped
  | failed (error : ProcessingError)
deriving DecidableEq, Repr

/-- FileResult: a processing outcome with its path context. -/
structure FileResult where
  path : FsPath
  outcome : FileOutcome
deriving DecidableEq, Repr

/-- BatchResult (src/batch/result.rs), without the wall-clock duration
field. -/
structure BatchResult where
  total : Nat
  formatted : Nat
  unchanged : Nat
  skipped : Nat
  failed : Nat
  errors : List (FsPath × ProcessingError)
deriving DecidableEq, Repr

/-- BatchResult::new / Default: all counters zero, no errors. -/
def BatchResult.new : BatchResult :=
  { total := 0, formatted := 0, unchanged := 0, skipped := 0, failed := 0, errors := [] }

/-- The per-result counting step shared by from_results and add_result: a
Formatted outcome is counted under formatted when its changed flag is set
and under unchanged otherwise; a Failed outcome also pushes its (path,
error) pair. -/
def BatchResult.count_one (b : BatchResult) (r : FileResult) : BatchResult :=
  match r.outcome with
  | FileOutcome.formatted changed =>
    if changed then { b with formatted := b.formatted + 1 }
    else { b with unchanged := b.unchanged + 1 }
  | FileOutcome.unchanged => { b with unchanged := b.unchanged + 1 }
  | FileOutcome.skipped => { b with skipped := b.skipped + 1 }
  | FileOutcome.failed e =>
    { b with failed := b.failed + 1, errors := b.errors ++ [(r.path, e)] }

/-- BatchResult::from_results: total is the length of the input list and
the remaining counters are folded from zero over the results in order. -/
def BatchResult.from_results (results : List FileResult) : BatchResult :=
  results.foldl BatchResult.count_one
    { total := results.length, formatted := 0, unchanged := 0, skipped := 0, failed := 0,
      errors := [] }

/-- BatchResult::add_result: increments total and counts the single
result. -/
def BatchResult.add_result (b : BatchResult) (r : FileResult) : BatchResult :=
  BatchResult.count_one { b with total := b.total + 1 } r

/-- The C3 invariant of a batch summary. -/
def BatchInv (b : BatchResult) : Prop :=
  b.total = b.formatted + b.unchanged + b.skipped + b.failed ∧
    b.errors.length = b.failed

/-- One when an outcome is Failed, zero otherwise: the number of error
entries a single outcome contributes. -/
def failDelta : FileOutcome → Nat
  | FileOutcome.failed _ => 1
  | _ => 0

/-- Counting one result leaves total alone, grows the sum of the four
outcome counters by exactly one, and grows both the failed counter and
the error list by one entry exactly for a Failed outcome. -/
theorem count_one_effect (b : BatchResult) (r : FileResult) :
    (b.count_one r).total = b.total ∧
      (b.count_one r).formatted + (b.count_one r).unchanged + (b.count_one r).skipped +
          (b.count_one r).failed =
        b.formatted + b.unchanged + b.skipped + b.failed + 1 ∧
      (b.count_one r).failed = b.failed + failDelta r.outcome ∧
      (b.count_one r).errors.length = b.errors.length + failDelta r.outcome := by
  rcases r with ⟨p, o⟩
  cases o with
  | formatted changed =>
    cases changed <;> simp [BatchResult.count_one, failDelta] <;> omega
  | unchanged => simp [BatchResult.count_one, failDelta]; omega
  | skipped => simp [BatchResult.count_one, failDelta]; omega
  | failed e => simp [BatchResult.count_one, failDelta]; omega

/-- Folding count_one over a result list leaves total alone, adds the
list length to the sum of the four counters, and grows failed and the
error-list length by a common amount. -/
theorem foldl_count_one_effect (results : List FileResult) (b : BatchResult) :
    (results.foldl BatchResult.count_one b).total = b.total ∧
      (results.foldl BatchResult.count_one b).formatted +
          (results.foldl BatchResult.count_one b).unchanged +
          (results.foldl BatchResult.count_one b).skipped +
          (results.foldl BatchResult.count_one b).failed =
        b.formatted + b.unchanged + b.skipped + b.failed + results.length ∧
      ∃ k, (results.foldl BatchResult.count_one b).failed = b.failed + k ∧
        (results.foldl BatchResult.count_one b).errors.length = b.errors.length + k := by
  induction results generalizing b with
  | nil => exact ⟨rfl, by simp, 0, by simp, by simp⟩
  | cons r rs ih =>
    obtain ⟨h1, h2, h3, h4⟩ := count_one_effect b r
    obtain ⟨g1, g2, g3⟩ := ih (b.count_one r)
    simp only [List.foldl_cons, List.length_cons]
    refine ⟨by omega, by omega, ?_⟩
    obtain ⟨k, gk1, gk2⟩ := g3
    exact ⟨failDelta r.outcome + k, by omega, by omega⟩

/-- C3: every aggregated BatchResult satisfies total = formatted +
unchanged + skipped + failed and errors.length = failed, whether built by
from_results on any result list or by any sequence of add_result calls
from the empty result; each added result grows total by one, grows the
sum of the four outcome counters by exactly one, and pushes an error
entry exactly when it is Failed. -/
theorem batch_result_invariant :
    (∀ results : List FileResult, BatchInv (BatchResult.from_results results)) ∧
      (∀ results : List FileResult,
        BatchInv (results.foldl BatchResult.add_result BatchResult.new)) ∧
      (∀ (b : BatchResult) (r : FileResult),
        (b.add_result r).total = b.total + 1 ∧
          (b.add_result r).formatted + (b.add_result r).unchanged + (b.add_result r).skipped +
              (b.add_result r).failed =
            b.formatted + b.unchanged + b.skipped + b.failed + 1 ∧
          (b.add_result r).failed = b.failed + failDelta r.outcome ∧
          (b.add_result r).errors.length = b.errors.length + failDelta r.outcome) := by
  have hadd : ∀ (b : BatchResult) (r : FileResult),
      (b.add_result r).total = b.total + 1 ∧
        (b.add_result r).formatted + (b.add_result r).unchanged + (b.add_result r).skipped +
            (b.add_result r).failed =
          b.formatted + b.unchanged + b.skipped + b.failed + 1 ∧
        (b.add_result r).failed = b.failed + failDelta r.outcome ∧
        (b.add_result r).errors.length = b.errors.length + failDelta r.outcome := by
    intro b r
    exact count_one_effect { b with total := b.total + 1 } r
  refine ⟨?_, ?_, hadd⟩
  · intro results
    obtain ⟨h1, h2, k, hk1, hk2⟩ := foldl_count_one_effect results
      { total := results.length, formatted := 0, unchanged := 0, skipped := 0, failed := 0,
        errors := [] }
    simp at h1 h2 hk1 hk2
    unfold BatchResult.from_results BatchInv
    exact ⟨by omega, by omega⟩
  · intro results
    have hpres : ∀ (b : BatchResult) (r : FileResult), BatchInv b → BatchInv (b.add_result r) := by
      intro b r hb
      obtain ⟨hb1, hb2⟩ := hb
      obtain ⟨a1, a2, a3, a4⟩ := hadd b r
      exact ⟨by omega, by omega⟩
    have hall : ∀ (b : BatchResult), BatchInv b →
        BatchInv (results.foldl BatchResult.add_result b) := by
      induction results with
      | nil => intro b hb; simpa using hb
      | cons r rs ih =>
        intro b hb
        exact ih _ (hpres b r hb)
    exact hall BatchResult.new ⟨rfl, rfl⟩

/-- Filesystem oracle for the reader (src/batch/reader.rs): the size
reported by std::fs::metadata, the result of a full std::fs::read_to_string,
and the result of File::open plus Mmap::map (the raw mapped bytes), each
possibly failing. -/
structure ReaderFs where
  metadataLen : FsPath → Except IoErrKind Nat
  readToString : FsPath → Except IoErrKind String
  mmapOpen : FsPath → Except IoErrKind (List Nat)

/-- FileContent (src/batch/reader.rs): an owned in-memory string or a
read-only memory map of raw bytes. -/
inductive FileContent where
  | string (s : String)
  | mmap (bytes : List Nat)
deriving DecidableEq, Repr

/-- FileContent::is_mmap. -/
def FileContent.is_mmap : FileContent → Bool
  | FileContent.mmap _ => true
  | FileContent.string _ => false

/-- FileContent::as_str: an owned string is returned directly; mapped
bytes are validated as UTF-8 first (std::str::from_utf8, supplied as the
decoder oracle), failing with Utf8Error. -/
def FileContent.as_str (dec : List Nat → Option String) :
    FileContent → Except ProcessingError String
  | FileContent.string s => Except.ok s
  | FileContent.mmap bytes =>
    match dec bytes with
    | some s => Except.ok s
    | none => Except.error ProcessingError.utf8Error

/-- SmartFileReader::read_string: std::fs::read_to_string, failures
mapped to ReadError. -/
def read_string (fs : ReaderFs) (path : FsPath) : Except ProcessingError FileContent :=
  match fs.readToString path with
  | Except.ok s => Except.ok (FileContent.string s)
  | Except.error e => Except.error (ProcessingError.readError e)

/-- SmartFileReader::read_mmap: File::open then Mmap::map, failures
mapped to MmapError. -/
def read_mmap (fs : ReaderFs) (path : FsPath) : Except ProcessingError FileContent :=
  match fs.mmapOpen path with
  | Except.ok bytes => Except.ok (FileContent.mmap bytes)
  | Except.error e => Except.error (ProcessingError.mmapError e)

/-- SmartFileReader::read (src/batch/reader.rs lines 80-93): stat the
file; at or above the threshold try the memory map and fall back to a
full read on any map failure; strictly below it do a full read. -/
def SmartFileReader.read (mmap_threshold : Nat) (fs : ReaderFs) (path : FsPath) :
    Except ProcessingError FileContent :=
  match fs.metadataLen path with
  | Except.error e => Except.error (ProcessingError.readError e)
  | Except.ok size =>
    if size ≥ mmap_threshold then
      match read_mmap fs path with
      | Except.ok c => Except.ok c
      | Except.error _ => read_string fs path
    else
      read_string fs path

/-- C6: with a stat-reported size strictly below the threshold the reader
does a full in-memory read (never a map); at or above the threshold it
memory-maps, falling back to the full read exactly when mapping fails; in
particular size threshold - 1 takes the full-read path and size
threshold takes the map path. -/
theorem smart_reader_strategy (t : Nat) (fs : ReaderFs) (p : FsPath) (size : Nat)
    (hmeta : fs.metadataLen p = Except.ok size) :
    (size < t → SmartFileReader.read t fs p = read_string fs p ∧
      ∀ c, SmartFileReader.read t fs p = Except.ok c → c.is_mmap = false) ∧
      (size ≥ t →
        (∀ bytes, fs.mmapOpen p = Except.ok bytes →
          SmartFileReader.read t fs p = Except.ok (FileContent.mmap bytes)) ∧
        (∀ e, fs.mmapOpen p = Except.error e →
          SmartFileReader.read t fs p = read_string fs p)) ∧
      (size = t - 1 → 1 ≤ t → SmartFileReader.read t fs p = read_string fs p) ∧
      (size = t → ∀ bytes, fs.mmapOpen p = Except.ok bytes →
        SmartFileReader.read t fs p = Except.ok (FileContent.mmap bytes)) := by
  refine ⟨?_, ?_, ?_, ?_⟩
  · intro hlt
    have hnot : ¬ size ≥ t := by omega
    constructor
    · unfold SmartFileReader.read
      rw [hmeta]
      simp [hnot]
    · intro c hc
      unfold SmartFileReader.read at hc
      rw [hmeta] at hc
      simp [hnot] at hc
      unfold read_string at hc
      cases hrs : fs.readToString p with
      | ok s => rw [hrs] at hc; simp at hc; rw [← hc]; rfl
      | error e => rw [hrs] at hc; simp at hc
  · intro hge
    constructor
    · intro bytes hb
      unfold SmartFileReader.read
      rw [hmeta]
      simp [hge, read_mmap, hb]
    · intro e he
      unfold SmartFileReader.read
      rw [hmeta]
      simp [hge, read_mmap, he]
  · intro hsz ht
    have hnot : ¬ size ≥ t := by omega
    unfold SmartFileReader.read
    rw [hmeta]
    simp [hnot]
  · intro hsz bytes hb
    have hge : size ≥ t := by omega
    unfold SmartFileReader.read
    rw [hmeta]
    simp [hge, read_mmap, hb]

/-- A concrete reader filesystem for the C6 witness: one path of size 7
whose map yields the bytes [104, 105] and whose full read yields "hi". -/
def readerFsW : ReaderFs :=
  { metadataLen := fun _ => Except.ok 7
    readToString := fun _ => Except.ok "hi"
    mmapOpen := fun _ => Except.ok [104, 105] }

/-- Witness for C6 at the boundary: with threshold 8 the size-7 file
takes the full-read path, and with threshold 7 it takes the map path. -/
theorem smart_reader_strategy_witness :
    SmartFileReader.read 8 readerFsW [] = read_string readerFsW [] ∧
      SmartFileReader.read 7 readerFsW [] = Except.ok (FileContent.mmap [104, 105]) := by
  constructor
  · exact ((smart_reader_strategy 8 readerFsW [] 7 rfl).2.2.1) rfl (by decide)
  · exact ((smart_reader_strategy 7 readerFsW [] 7 rfl).2.2.2) rfl [104, 105] rfl

/-- ProcessingConfig (src/batch/config.rs). -/
structure ProcessingConfig where
  indent : Nat
  width : Nat
  in_place : Bool
  dry_run : Bool
  workers : Nat
  mmap_threshold : Nat
  verbose : Bool
deriving DecidableEq, Repr

/-- ProcessingConfig::default. -/
def ProcessingConfig.new : ProcessingConfig :=
  { indent := 2, width := 80, in_place := false, dry_run := false, workers := 0,
    mmap_threshold := 512 * 1024, verbose := false }

/-- Environment of a BatchProcessor: the reader filesystem, the UTF-8
decoder used by FileContent::as_str, the external
Emitter::format_with_config (a pure oracle, per the spec a deterministic
function of the input text), and the write/rename failure oracle. -/
structure ProcEnv where
  rfs : ReaderFs
  utf8Decode : List Nat → Option String
  formatR : String → Except String String
  wo : WriteOracle

/-- BatchProcessor::format_file (src/batch/processor.rs lines 169-183):
read the file, view it as text, run the external formatter, compare, and
atomically rewrite only when the text changed, in_place is set and
dry_run is not. Returns the changed flag together with the resulting
file store (the store also reflects temp-file residue when the rename
fails). -/
def format_file (cfg : ProcessingConfig) (env : ProcEnv) (st : Store) (path : FsPath) :
    Except ProcessingError Bool × Store :=
  match SmartFileReader.read cfg.mmap_threshold env.rfs path with
  | Except.error e => (Except.error e, st)
  | Except.ok file_content =>
    match file_content.as_str env.utf8Decode with
    | Except.error e => (Except.error e, st)
    | Except.ok original =>
      match env.formatR original with
      | Except.error e => (Except.error (ProcessingError.formatError e), st)
      | Except.ok formatted =>
        let changed : Bool := original ≠ formatted
        if changed && cfg.in_place && !cfg.dry_run then
          match write_file_atomic env.wo st path formatted with
          | (Except.error e, st') => (Except.error e, st')
          | (Except.ok _, st') => (Except.ok changed, st')
        else
          (Except.ok changed, st)

/-- BatchProcessor::process_single_file (src/batch/processor.rs lines
137-163): a changed file is Skipped when dry_run is set, otherwise
Formatted with changed true; an unchanged file is Unchanged; an error
becomes a Failed outcome. -/
def process_single_file (cfg : ProcessingConfig) (env : ProcEnv) (st : Store) (path : FsPath) :
    FileResult × Store :=
  match format_file cfg env st path with
  | (Except.ok changed, st') =>
    let outcome :=
      if cfg.dry_run && changed then FileOutcome.skipped
      else if changed then FileOutcome.formatted true
      else FileOutcome.unchanged
    ({ path := path, outcome := outcome }, st')
  | (Except.error e, st') => ({ path := path, outcome := FileOutcome.failed e }, st')

/-- The configuration refuting C2: dry_run set, in_place not set. -/
def cfgDryNoInPlace : ProcessingConfig :=
  { ProcessingConfig.new with dry_run := true, in_place := false }

/-- Environment refuting C2: the file reads as "a: 1" and the formatter
canonicalises it to the different text "a: 1\n". -/
def envC2 : ProcEnv :=
  { rfs :=
      { metadataLen := fun _ => Except.ok 4
        readToString := fun _ => Except.ok "a: 1"
        mmapOpen := fun _ => Except.error IoErrKind.other }
    utf8Decode := fun _ => none
    formatR := fun s => Except.ok (s ++ "\n")
    wo := noWriteFailures }

/-- The empty file store used in processor counterexamples. -/
def emptyStore : Store := fun _ => none

/-- C2 counterexample: for a file whose formatted output differs, with
dry_run set but in_place NOT set, the processor returns Skipped, not
Formatted with changed true, so Skipped is not equivalent to having both
in_place and dry_run set. -/
theorem process_single_file_skipped_not_iff :
    ¬ (((process_single_file cfgDryNoInPlace envC2 emptyStore [Component.normal "a.yaml"]).1.outcome
          = FileOutcome.skipped) ↔
        (cfgDryNoInPlace.in_place = true ∧ cfgDryNoInPlace.dry_run = true)) := by
  intro h
  have houtcome :
      (process_single_file cfgDryNoInPlace envC2 emptyStore
        [Component.normal "a.yaml"]).1.outcome = FileOutcome.skipped := by rfl
  have := h.mp houtcome
  simp [cfgDryNoInPlace, ProcessingConfig.new] at this

/-- C2 as amended: for a file that reads as text original and formats to
formatted, when the two differ the outcome is Skipped exactly when
dry_run is set (regardless of in_place), Formatted with changed true
after the atomic rewrite when in_place is set and dry_run is not, and
Formatted with changed true with the store untouched when neither write
condition holds; when original and formatted are byte-equal the outcome
is Unchanged and the store is untouched. -/
theorem process_single_file_outcomes (cfg : ProcessingConfig) (env : ProcEnv) (st : Store)
    (path : FsPath) (fc : FileContent) (original formatted : String)
    (hread : SmartFileReader.read cfg.mmap_threshold env.rfs path = Except.ok fc)
    (hstr : fc.as_str env.utf8Decode = Except.ok original)
    (hfmt : env.formatR original = Except.ok formatted) :
    (original ≠ formatted →
      (cfg.dry_run = true →
        process_single_file cfg env st path =
          ({ path := path, outcome := FileOutcome.skipped }, st)) ∧
      (cfg.dry_run = false → cfg.in_place = true →
        process_single_file cfg env st path =
          (match write_file_atomic env.wo st path formatted with
          | (Except.ok _, st') => ({ path := path, outcome := FileOutcome.formatted true }, st')
          | (Except.error e, st') => ({ path := path, outcome := FileOutcome.failed e }, st'))) ∧
      (cfg.in_place = false →
        process_single_file cfg env st path =
          (if cfg.dry_run then ({ path := path, outcome := FileOutcome.skipped }, st)
           else ({ path := path, outcome := FileOutcome.formatted true }, st)))) ∧
      (original = formatted →
        process_single_file cfg env st path =
          ({ path := path, outcome := FileOutcome.unchanged }, st)) := by
  constructor
  · intro hne
    refine ⟨?_, ?_, ?_⟩
    · intro hdry
      simp [process_single_file, format_file, hread, hstr, hfmt, hdry, hne]
    · intro hdry hip
      simp only [process_single_file, format_file, hread, hstr, hfmt, hip, hdry,
        Bool.not_false, Bool.and_true]
      have hd : (decide (original = formatted)) = false := by simp [hne]
      simp only [ne_eq, hd, Bool.not_false, Bool.true_and, if_true]
      cases hw : write_file_atomic env.wo st path formatted with
      | mk res st' =>
        cases res with
        | ok u => simp [hdry, hne]
        | error e => simp [hne]
    · intro hip
      simp only [process_single_file, format_file, hread, hstr, hfmt, hip]
      have hd : (decide (original = formatted)) = false := by simp [hne]
      simp only [ne_eq, hd, Bool.not_false, Bool.true_and, Bool.and_false, Bool.false_and,
        Bool.false_eq_true, if_false]
      cases hdry : cfg.dry_run with
      | true => simp [hne]
      | false => simp [hne]
  · intro heq
    subst heq
    simp [process_single_file, format_file, hread, hstr, hfmt]

/-- Witness for the amended C2 at a concrete input: with in_place and
dry_run both clear and a changing file, the outcome is Formatted with
changed true and the store is untouched. -/
theorem process_single_file_outcomes_witness :
    process_single_file ProcessingConfig.new envC2 emptyStore [Component.normal "a.yaml"] =
      ({ path := [Component.normal "a.yaml"], outcome := FileOutcome.formatted true },
        emptyStore) := by
  have h := process_single_file_outcomes ProcessingConfig.new envC2 emptyStore
    [Component.normal "a.yaml"] (FileContent.string "a: 1") "a: 1" "a: 1\n"
    rfl rfl rfl
  have h3 := (h.1 (by decide)).2.2 rfl
  rw [h3]
  rfl

/-- C9: with dry_run set the processor performs no filesystem write at
all: the resulting store is the input store, whatever the file, the
in_place flag and the outcome. -/
theorem process_single_file_dry_run_no_write (cfg : ProcessingConfig) (env : ProcEnv)
    (st : Store) (path : FsPath) (hdry : cfg.dry_run = true) :
    (process_single_file cfg env st path).2 = st := by
  cases hread : SmartFileReader.read cfg.mmap_threshold env.rfs path with
  | error e => simp [process_single_file, format_file, hread]
  | ok fc =>
    cases hstr : fc.as_str env.utf8Decode with
    | error e => simp [process_single_file, format_file, hread, hstr]
    | ok original =>
      cases hfmt : env.formatR original with
      | error e => simp [process_single_file, format_file, hread, hstr, hfmt]
      | ok formatted =>
        simp [process_single_file, format_file, hread, hstr, hfmt, hdry]

/-- Witness for C9: a concrete dry-run configuration on a changing file
leaves the store untouched. -/
theorem process_single_file_dry_run_no_write_witness :
    (process_single_file cfgDryNoInPlace envC2 emptyStore [Component.normal "a.yaml"]).2 =
      emptyStore := by
  exact process_single_file_dry_run_no_write cfgDryNoInPlace envC2 emptyStore
    [Component.normal "a.yaml"] (by decide)

/-- Maximum number of paths read from a stdin stream
(src/discovery.rs). -/
def MAX_STDIN_PATHS : Nat := 100000

/-- Maximum byte length of a stdin line (src/discovery.rs). -/
def MAX_LINE_LENGTH : Nat := 4096

/-- Maximum number of glob matches per pattern (src/discovery.rs). -/
def MAX_GLOB_MATCHES : Nat := 100000

/-- DiscoveryOrigin (src/discovery.rs). -/
inductive DiscoveryOrigin where
  | directPath
  | directoryWalk
  | globExpansion
  | stdinList
deriving DecidableEq, Repr

/-- DiscoveredFile: a canonical path with how it was found. -/
structure DiscoveredFile where
  path : FsPath
  origin : DiscoveryOrigin
deriving DecidableEq, Repr

/-- DiscoveryError (src/error.rs), with the payloads the discovery code
itself constructs. -/
inductive DiscoveryError where
  | invalidPattern (pattern : String)
  | ioError (path : FsPath)
  | permissionDenied (path : FsPath)
  | brokenSymlink (path : FsPath)
  | pathNotFound (path : FsPath)
  | stdinError
  | tooManyPaths (max : Nat)
deriving DecidableEq, Repr

/-- An entry yielded by the directory walker, with the file-type bit the
discovery code inspects (entry.file_type().is_some_and(is_file)). -/
structure WalkEntry where
  path : FsPath
  isFileType : Bool
deriving DecidableEq, Repr

/-- A warning printed to the diagnostic stream during discovery,
abstracted from its message text. -/
inductive Warning where
  | walkEntryFailed (msg : String)
  | invalidGlobPattern (pattern : FsPath)
  | globExceededMax (pattern : FsPath)
  | globEntryFailed (msg : String)
  | lineTooLong (lineNumber : Nat)
deriving DecidableEq, Repr

/-- Filesystem oracle for discovery: existence and kind tests, Path
canonicalize with its failure kind, symlink_metadata success, the entry
stream of the external directory walker (already shaped by the walk
policy flags of the DiscoveryConfig), the entry stream of glob::glob,
and PathBuf::from on a trimmed stdin line. -/
structure DiscFs where
  pathExists : FsPath → Bool
  isFile : FsPath → Bool
  isDir : FsPath → Bool
  canonicalize : FsPath → Except IoErrKind FsPath
  symlinkMetaOk : FsPath → Bool
  walkEntries : FsPath → List (Except String WalkEntry)
  globRun : FsPath → Except String (List (Except String FsPath))
  parsePath : String → FsPath

/-- Mutable state threaded through one discovery call: the emitted files,
the set of canonical paths already seen (the HashSet, as a list), and
the warnings printed so far. -/
structure DiscState where
  discovered : List DiscoveredFile
  seen : List FsPath
  warnings : List Warning
deriving DecidableEq, Repr

/-- The empty discovery state. -/
def DiscState.empty : DiscState :=
  { discovered := [], seen := [], warnings := [] }

/-- Classification of a canonicalize failure (src/discovery.rs lines
258-280): NotFound is a broken symlink when symlink_metadata still
succeeds and PathNotFound otherwise; PermissionDenied maps to its own
kind; anything else is a generic IoError. -/
def classifyCanonFailure (fs : DiscFs) (path : FsPath) : IoErrKind → DiscoveryError
  | IoErrKind.notFound =>
    if fs.symlinkMetaOk path then DiscoveryError.brokenSymlink path
    else DiscoveryError.pathNotFound path
  | IoErrKind.permissionDenied => DiscoveryError.permissionDenied path
  | IoErrKind.other => DiscoveryError.ioError path

/-- FileDiscovery::discover_file (src/discovery.rs lines 246-291): filter
by should_include, canonicalize (classifying any failure), then dedup by
canonical path, first occurrence keeping its origin. -/
def discover_file (fd : FileDiscovery) (fs : DiscFs) (path : FsPath)
    (origin : DiscoveryOrigin) (st : DiscState) : Except DiscoveryError DiscState :=
  if ¬ fd.should_include path then Except.ok st
  else
    match fs.canonicalize path with
    | Except.error e => Except.error (classifyCanonFailure fs path e)
    | Except.ok canonical =>
      if st.seen.contains canonical then Except.ok st
      else
        Except.ok { st with
          discovered := st.discovered ++ [{ path := canonical, origin := origin }]
          seen := st.seen ++ [canonical] }

/-- Loop body of FileDiscovery::discover_directory over one walker
entry: an entry that fails to read produces a warning; a file entry is
passed to discover_file with its result discarded on error (the Rust
code binds it to the wildcard); non-file entries are skipped. -/
def walk_step (fd : FileDiscovery) (fs : DiscFs) (st : DiscState)
    (entry : Except String WalkEntry) : DiscState :=
  match entry with
  | Except.error msg => { st with warnings := st.warnings ++ [Warning.walkEntryFailed msg] }
  | Except.ok we =>
    if we.isFileType then
      match discover_file fd fs we.path DiscoveryOrigin.directoryWalk st with
      | Except.ok st' => st'
      | Except.error _ => st
    else st

/-- FileDiscovery::discover_directory (src/discovery.rs lines 293-327):
walk the directory; an entry that fails to read produces a warning and
traversal continues; a file entry is passed to discover_file with its
result discarded (errors silently ignored). -/
def discover_directory (fd : FileDiscovery) (fs : DiscFs) (dir : FsPath)
    (st : DiscState) : DiscState :=
  (fs.walkEntries dir).foldl (walk_step fd fs) st

/-- Loop body of FileDiscovery::discover_glob over the glob entry stream,
carrying the running match count. -/
def discover_glob_go (fd : FileDiscovery) (fs : DiscFs) (pattern : FsPath) :
    List (Except String FsPath) → Nat → DiscState → DiscState
  | [], _, st => st
  | entry :: rest, count, st =>
    let c := count + 1
    if c > MAX_GLOB_MATCHES then
      { st with warnings := st.warnings ++ [Warning.globExceededMax pattern] }
    else
      match entry with
      | Except.ok path =>
        let st' :=
          if fs.isFile path then
            match discover_file fd fs path DiscoveryOrigin.globExpansion st with
            | Except.ok st1 => st1
            | Except.error _ => st
          else st
        discover_glob_go fd fs pattern rest c st'
      | Except.error msg =>
        discover_glob_go fd fs pattern rest c
          { st with warnings := st.warnings ++ [Warning.globEntryFailed msg] }

/-- FileDiscovery::discover_glob (src/discovery.rs lines 329-367): an
invalid pattern warns and yields nothing; otherwise the entry stream is
consumed up to MAX_GLOB_MATCHES, entry errors warning and matched files
going through discover_file with errors silently ignored. -/
def discover_glob (fd : FileDiscovery) (fs : DiscFs) (pattern : FsPath)
    (st : DiscState) : DiscState :=
  match fs.globRun pattern with
  | Except.error _ => { st with warnings := st.warnings ++ [Warning.invalidGlobPattern pattern] }
  | Except.ok entries => discover_glob_go fd fs pattern entries 0 st

/-- Loop body of FileDiscovery::discover over the input paths: an
existing file goes to discover_file as DirectPath with errors
propagated; an existing directory is walked; anything else is treated as
a glob pattern. -/
def discover_go (fd : FileDiscovery) (fs : DiscFs) :
    List FsPath → DiscState → Except DiscoveryError DiscState
  | [], st => Except.ok st
  | p :: ps, st =>
    if fs.pathExists p then
      if fs.isFile p then
        match discover_file fd fs p DiscoveryOrigin.directPath st with
        | Except.error e => Except.error e
        | Except.ok st' => discover_go fd fs ps st'
      else if fs.isDir p then
        discover_go fd fs ps (discover_directory fd fs p st)
      else
        discover_go fd fs ps st
    else
      discover_go fd fs ps (discover_glob fd fs p st)

/-- FileDiscovery::discover (src/discovery.rs lines 156-181). -/
def discover (fd : FileDiscovery) (fs : DiscFs) (paths : List FsPath) :
    Except DiscoveryError DiscState :=
  discover_go fd fs paths DiscState.empty

/-- Rust str::trim on a decoded line, modelled on the character list:
drop Unicode whitespace from both ends. -/
def rustTrim (s : String) : String :=
  String.mk (((s.data.dropWhile Char.isWhitespace).reverse.dropWhile Char.isWhitespace).reverse)

/-- Rust str::len: the UTF-8 byte length of the text. -/
def utf8Len (s : String) : Nat :=
  s.data.foldl (fun n c => n + c.utf8Size) 0

/-- Rust str::is_empty. -/
def strIsEmpty (s : String) : Bool :=
  s.data.isEmpty

/-- Rust str::starts_with for the single character '#'. -/
def startsWithHash (s : String) : Bool :=
  match s.data with
  | c :: _ => c = '#'
  | [] => false

/-- Loop body of FileDiscovery::discover_from_reader over the line
stream, carrying the running line count: a line read failure aborts with
StdinError; every line read counts against MAX_STDIN_PATHS; over-long
trimmed lines warn and are skipped; blank and comment lines are skipped;
a line naming an existing regular file goes through discover_file as
StdinList with errors propagated; any other line is silently ignored. -/
def discover_from_reader_go (fd : FileDiscovery) (fs : DiscFs) :
    List (Except Unit String) → Nat → DiscState → Except DiscoveryError DiscState
  | [], _, st => Except.ok st
  | l :: ls, count, st =>
    match l with
    | Except.error _ => Except.error DiscoveryError.stdinError
    | Except.ok line =>
      let c := count + 1
      if c > MAX_STDIN_PATHS then Except.error (DiscoveryError.tooManyPaths MAX_STDIN_PATHS)
      else
        let trimmed := rustTrim line
        if utf8Len trimmed > MAX_LINE_LENGTH then
          discover_from_reader_go fd fs ls c
            { st with warnings := st.warnings ++ [Warning.lineTooLong c] }
        else if strIsEmpty trimmed || startsWithHash trimmed then
          discover_from_reader_go fd fs ls c st
        else
          let path := fs.parsePath trimmed
          if fs.isFile path then
            match discover_file fd fs path DiscoveryOrigin.stdinList st with
            | Except.error e => Except.error e
            | Except.ok st' => discover_from_reader_go fd fs ls c st'
          else
            discover_from_reader_go fd fs ls c st

/-- FileDiscovery::discover_from_reader (src/discovery.rs lines
189-231). -/
def discover_from_reader (fd : FileDiscovery) (fs : DiscFs)
    (lines : List (Except Unit String)) : Except DiscoveryError DiscState :=
  discover_from_reader_go fd fs lines 0 DiscState.empty

/-- Structure of a successful discover_file call: either the state is
returned untouched (filtered out, or canonical path already seen) or
exactly one new entry with the given origin and an unseen canonical path
is appended, the warnings never changing. -/
theorem discover_file_ok_cases (fd : FileDiscovery) (fs : DiscFs) (p : FsPath)
    (o : DiscoveryOrigin) (st st' : DiscState)
    (h : discover_file fd fs p o st = Except.ok st') :
    st' = st ∨
      ∃ c, fs.canonicalize p = Except.ok c ∧ st.seen.contains c = false ∧
        st' = { st with
          discovered := st.discovered ++ [{ path := c, origin := o }]
          seen := st.seen ++ [c] } := by
  unfold discover_file at h
  split at h
  · injection h with h
    exact Or.inl h.symm
  · split at h
    · cases h
    · next c heq =>
      split at h
      · injection h with h
        exact Or.inl h.symm
      · next hns =>
        injection h with h
        exact Or.inr ⟨c, heq, by simpa using hns, h.symm⟩

/-- The dedup invariant carried through a discovery call: emitted
canonical paths are pairwise distinct and all recorded in the seen
set. -/
def DiscInv (st : DiscState) : Prop :=
  (st.discovered.map DiscoveredFile.path).Nodup ∧
    ∀ d ∈ st.discovered, d.path ∈ st.seen

/-- discover_file preserves the dedup invariant. -/
theorem discover_file_inv (fd : FileDiscovery) (fs : DiscFs) (p : FsPath)
    (o : DiscoveryOrigin) (st st' : DiscState)
    (hinv : DiscInv st) (h : discover_file fd fs p o st = Except.ok st') :
    DiscInv st' := by
  rcases discover_file_ok_cases fd fs p o st st' h with rfl | ⟨c, hc, hns, rfl⟩
  · exact hinv
  · obtain ⟨hnd, hsub⟩ := hinv
    have hcm : c ∉ st.seen := by
      intro hmem
      have : st.seen.contains c = true := by
        simpa using List.elem_eq_true_of_mem hmem
      rw [this] at hns
      cases hns
    constructor
    · dsimp only
      simp only [List.map_append, List.map_cons, List.map_nil]
      refine List.Nodup.append hnd (List.nodup_singleton c) ?_
      intro x hx hx'
      rcases List.mem_map.mp hx with ⟨d, hd, rfl⟩
      have := hsub d hd
      simp only [List.mem_singleton] at hx'
      rw [hx'] at this
      exact hcm this
    · intro d hd
      dsimp only at hd ⊢
      rcases List.mem_append.mp hd with hd | hd
      · exact List.mem_append.mpr (Or.inl (hsub d hd))
      · simp only [List.mem_singleton] at hd
        rw [hd]
        simp


/-- walk_step preserves the dedup invariant. -/
theorem walk_step_inv (fd : FileDiscovery) (fs : DiscFs) (st : DiscState)
    (entry : Except String WalkEntry) (hinv : DiscInv st) :
    DiscInv (walk_step fd fs st entry) := by
  unfold walk_step
  cases entry with
  | error msg => exact ⟨hinv.1, hinv.2⟩
  | ok we =>
    by_cases hft : we.isFileType = true
    · simp only [hft, if_true]
      cases hdf : discover_file fd fs we.path DiscoveryOrigin.directoryWalk st with
      | ok st' => exact discover_file_inv fd fs we.path DiscoveryOrigin.directoryWalk st st' hinv hdf
      | error e => exact hinv
    · simp only [Bool.not_eq_true] at hft
      simp only [hft, Bool.false_eq_true, if_false]
      exact hinv

/-- discover_directory preserves the dedup invariant. -/
theorem discover_directory_inv (fd : FileDiscovery) (fs : DiscFs) (dir : FsPath)
    (st : DiscState) (hinv : DiscInv st) :
    DiscInv (discover_directory fd fs dir st) := by
  unfold discover_directory
  generalize fs.walkEntries dir = entries
  induction entries generalizing st with
  | nil => exact hinv
  | cons e es ih =>
    exact ih (walk_step fd fs st e) (walk_step_inv fd fs st e hinv)

/-- discover_glob_go preserves the dedup invariant. -/
theorem discover_glob_go_inv (fd : FileDiscovery) (fs : DiscFs) (pattern : FsPath)
    (entries : List (Except String FsPath)) (count : Nat) (st : DiscState)
    (hinv : DiscInv st) :
    DiscInv (discover_glob_go fd fs pattern entries count st) := by
  induction entries generalizing count st with
  | nil => exact hinv
  | cons e es ih =>
    unfold discover_glob_go
    by_cases hc : count + 1 > MAX_GLOB_MATCHES
    · simp only [hc, if_true]
      exact ⟨hinv.1, hinv.2⟩
    · simp only [hc, if_false]
      cases e with
      | ok path =>
        by_cases hf : fs.isFile path = true
        · simp only [hf, if_true]
          cases hdf : discover_file fd fs path DiscoveryOrigin.globExpansion st with
          | ok st1 =>
            exact ih (count + 1) st1
              (discover_file_inv fd fs path DiscoveryOrigin.globExpansion st st1 hinv hdf)
          | error e => exact ih (count + 1) st hinv
        · simp only [Bool.not_eq_true] at hf
          simp only [hf, Bool.false_eq_true, if_false]
          exact ih (count + 1) st hinv
      | error msg =>
        exact ih (count + 1) _ ⟨hinv.1, hinv.2⟩

/-- discover_glob preserves the dedup invariant. -/
theorem discover_glob_inv (fd : FileDiscovery) (fs : DiscFs) (pattern : FsPath)
    (st : DiscState) (hinv : DiscInv st) :
    DiscInv (discover_glob fd fs pattern st) := by
  unfold discover_glob
  cases fs.globRun pattern with
  | error msg => exact ⟨hinv.1, hinv.2⟩
  | ok entries => exact discover_glob_go_inv fd fs pattern entries 0 st hinv

/-- discover_go preserves the dedup invariant. -/
theorem discover_go_inv (fd : FileDiscovery) (fs : DiscFs) (paths : List FsPath)
    (st st' : DiscState) (hinv : DiscInv st)
    (h : discover_go fd fs paths st = Except.ok st') :
    DiscInv st' := by
  induction paths generalizing st with
  | nil =>
    unfold discover_go at h
    injection h with h
    rw [← h]
    exact hinv
  | cons p ps ih =>
    unfold discover_go at h
    by_cases hex : fs.pathExists p = true
    · simp only [hex, if_true] at h
      by_cases hf : fs.isFile p = true
      · simp only [hf, if_true] at h
        cases hdf : discover_file fd fs p DiscoveryOrigin.directPath st with
        | ok st1 =>
          rw [hdf] at h
          exact ih st1 (discover_file_inv fd fs p DiscoveryOrigin.directPath st st1 hinv hdf) h
        | error e => rw [hdf] at h; cases h
      · simp only [Bool.not_eq_true] at hf
        simp only [hf, Bool.false_eq_true, if_false] at h
        by_cases hd : fs.isDir p = true
        · simp only [hd, if_true] at h
          exact ih _ (discover_directory_inv fd fs p st hinv) h
        · simp only [Bool.not_eq_true] at hd
          simp only [hd, Bool.false_eq_true, if_false] at h
          exact ih st hinv h
    · simp only [Bool.not_eq_true] at hex
      simp only [hex, Bool.false_eq_true, if_false] at h
      exact ih _ (discover_glob_inv fd fs p st hinv) h

/-- C4: the files emitted by a successful discover call have pairwise
distinct canonical paths, and when two direct input paths canonicalize to
the same real path exactly one DiscoveredFile is emitted for it, carrying
the origin of the first occurrence in input order. -/
theorem discover_dedup_first_origin :
    (∀ (fd : FileDiscovery) (fs : DiscFs) (paths : List FsPath) (st' : DiscState),
        discover fd fs paths = Except.ok st' →
          (st'.discovered.map DiscoveredFile.path).Nodup) ∧
      (∀ (fd : FileDiscovery) (fs : DiscFs) (p1 p2 c : FsPath),
        fs.pathExists p1 = true → fs.isFile p1 = true → fd.should_include p1 = true →
        fs.canonicalize p1 = Except.ok c →
        fs.pathExists p2 = true → fs.isFile p2 = true → fd.should_include p2 = true →
        fs.canonicalize p2 = Except.ok c →
        discover fd fs [p1, p2] =
          Except.ok { discovered := [{ path := c, origin := DiscoveryOrigin.directPath }]
                      seen := [c]
                      warnings := [] }) := by
  constructor
  · intro fd fs paths st' h
    exact (discover_go_inv fd fs paths DiscState.empty st'
      ⟨List.nodup_nil, by intro d hd; cases hd⟩ h).1
  · intro fd fs p1 p2 c hex1 hf1 hinc1 hc1 hex2 hf2 hinc2 hc2
    unfold discover discover_go discover_file DiscState.empty
    simp [hex1, hf1, hinc1, hc1, hex2, hf2, hinc2, hc2, discover_go, discover_file]

/-- Concrete discovery environment for the C4 witness: two distinct
input paths that canonicalize to the same real path. -/
def fsC4 : DiscFs :=
  { pathExists := fun p => p = [Component.normal "a"] || p = [Component.normal "b"]
    isFile := fun p => p = [Component.normal "a"] || p = [Component.normal "b"]
    isDir := fun _ => false
    canonicalize := fun _ => Except.ok [Component.rootDir, Component.normal "real"]
    symlinkMetaOk := fun _ => false
    walkEntries := fun _ => []
    globRun := fun _ => Except.ok []
    parsePath := fun _ => [] }

/-- A discovery whose include set matches every file name and with no
exclude patterns. -/
def fdAll : FileDiscovery :=
  { include_matcher := [fun _ => true], exclude_matcher := [] }

/-- Witness for C4: the duplicate pair of inputs yields exactly one
DiscoveredFile, with the first occurrence's origin. -/
theorem discover_dedup_first_origin_witness :
    discover fdAll fsC4 [[Component.normal "a"], [Component.normal "b"]] =
      Except.ok { discovered := [{ path := [Component.rootDir, Component.normal "real"]
                                   origin := DiscoveryOrigin.directPath }]
                  seen := [[Component.rootDir, Component.normal "real"]]
                  warnings := [] } := by
  exact discover_dedup_first_origin.2 fdAll fsC4
    [Component.normal "a"] [Component.normal "b"]
    [Component.rootDir, Component.normal "real"]
    (by decide) (by decide) (by decide) rfl (by decide) (by decide) (by decide) rfl

/-- A successful discover_file call never emits a warning. -/
theorem discover_file_warnings (fd : FileDiscovery) (fs : DiscFs) (p : FsPath)
    (o : DiscoveryOrigin) (st st' : DiscState)
    (h : discover_file fd fs p o st = Except.ok st') :
    st'.warnings = st.warnings := by
  rcases discover_file_ok_cases fd fs p o st st' h with rfl | ⟨c, _, _, rfl⟩
  · rfl
  · rfl

/-- Folding walk_step over error-free walker entries never emits a
warning (successful and failing discover_file calls alike leave the
warning list untouched). -/
theorem foldl_walk_step_warnings (fd : FileDiscovery) (fs : DiscFs)
    (entries : List (Except String WalkEntry))
    (hok : ∀ entry ∈ entries, ∃ we, entry = Except.ok we) :
    ∀ st : DiscState, (entries.foldl (walk_step fd fs) st).warnings = st.warnings := by
  induction entries with
  | nil => intro st; rfl
  | cons entry es ih =>
    intro st
    obtain ⟨we, rfl⟩ := hok entry (List.mem_cons_self entry es)
    have hok' : ∀ x ∈ es, ∃ we, x = Except.ok we := by
      intro x hx
      exact hok x (List.mem_cons_of_mem _ hx)
    simp only [List.foldl_cons]
    rw [ih hok']
    unfold walk_step
    by_cases hft : we.isFileType = true
    · simp only [hft, if_true]
      cases hdf : discover_file fd fs we.path DiscoveryOrigin.directoryWalk st with
      | ok st' => exact discover_file_warnings fd fs we.path DiscoveryOrigin.directoryWalk st st' hdf
      | error e => rfl
    · simp only [Bool.not_eq_true] at hft
      simp only [hft, Bool.false_eq_true, if_false]

/-- C8 as amended: a canonicalization failure on a candidate file is
classified (BrokenSymlink when symlink metadata still resolves on a
NotFound, else PathNotFound; PermissionDenied; generic IoError) and
surfaces as a discovery-level error exactly for direct path inputs; for
entries found by a directory walk or a glob expansion the failure is
silently ignored — no error is returned, no warning is emitted for it —
and traversal continues with the remaining entries. -/
theorem canonicalize_failure_handling :
    (∀ (fs : DiscFs) (p : FsPath),
      (fs.symlinkMetaOk p = true →
        classifyCanonFailure fs p IoErrKind.notFound = DiscoveryError.brokenSymlink p) ∧
      (fs.symlinkMetaOk p = false →
        classifyCanonFailure fs p IoErrKind.notFound = DiscoveryError.pathNotFound p) ∧
      classifyCanonFailure fs p IoErrKind.permissionDenied =
        DiscoveryError.permissionDenied p ∧
      classifyCanonFailure fs p IoErrKind.other = DiscoveryError.ioError p) ∧
    (∀ (fd : FileDiscovery) (fs : DiscFs) (p : FsPath) (ps : List FsPath) (st : DiscState)
        (e : IoErrKind),
      fs.pathExists p = true → fs.isFile p = true → fd.should_include p = true →
      fs.canonicalize p = Except.error e →
      discover_go fd fs (p :: ps) st = Except.error (classifyCanonFailure fs p e)) ∧
    (∀ (fd : FileDiscovery) (fs : DiscFs) (dir : FsPath) (st : DiscState),
      (∀ entry ∈ fs.walkEntries dir, ∃ we, entry = Except.ok we) →
      (discover_directory fd fs dir st).warnings = st.warnings) ∧
    (∀ (fd : FileDiscovery) (fs : DiscFs) (dir : FsPath) (st : DiscState)
        (f1 f2 : FsPath) (e : IoErrKind) (c2 : FsPath),
      fs.walkEntries dir = [Except.ok { path := f1, isFileType := true },
        Except.ok { path := f2, isFileType := true }] →
      fd.should_include f1 = true → fs.canonicalize f1 = Except.error e →
      fd.should_include f2 = true → fs.canonicalize f2 = Except.ok c2 →
      st.seen.contains c2 = false →
      discover_directory fd fs dir st = { st with
        discovered := st.discovered ++ [{ path := c2, origin := DiscoveryOrigin.directoryWalk }]
        seen := st.seen ++ [c2] }) ∧
    (∀ (fd : FileDiscovery) (fs : DiscFs) (pat : FsPath) (st : DiscState)
        (f1 f2 : FsPath) (e : IoErrKind) (c2 : FsPath),
      fs.globRun pat = Except.ok [Except.ok f1, Except.ok f2] →
      fs.isFile f1 = true → fd.should_include f1 = true →
      fs.canonicalize f1 = Except.error e →
      fs.isFile f2 = true → fd.should_include f2 = true →
      fs.canonicalize f2 = Except.ok c2 →
      st.seen.contains c2 = false →
      discover_glob fd fs pat st = { st with
        discovered := st.discovered ++ [{ path := c2, origin := DiscoveryOrigin.globExpansion }]
        seen := st.seen ++ [c2] }) := by
  refine ⟨?_, ?_, ?_, ?_, ?_⟩
  · intro fs p
    refine ⟨?_, ?_, rfl, rfl⟩
    · intro h
      simp [classifyCanonFailure, h]
    · intro h
      simp [classifyCanonFailure, h]
  · intro fd fs p ps st e hex hf hinc hc
    unfold discover_go
    simp [hex, hf, discover_file, hinc, hc]
  · intro fd fs dir st hok
    unfold discover_directory
    exact foldl_walk_step_warnings fd fs (fs.walkEntries dir) hok st
  · intro fd fs dir st f1 f2 e c2 hwalk hinc1 hc1 hinc2 hc2 hns
    have hmem : c2 ∉ st.seen := by simpa using hns
    unfold discover_directory
    rw [hwalk]
    simp [walk_step, discover_file, hinc1, hc1, hinc2, hc2, hmem]
  · intro fd fs pat st f1 f2 e c2 hglob hf1 hinc1 hc1 hf2 hinc2 hc2 hns
    have hmem : c2 ∉ st.seen := by simpa using hns
    unfold discover_glob
    rw [hglob]
    unfold discover_glob_go
    simp [discover_glob_go, discover_file, hf1, hinc1, hc1, hf2, hinc2, hc2, hmem,
      MAX_GLOB_MATCHES]

/-- The directory input used in the C8 counterexample and witness. -/
def dirD : FsPath := [Component.normal "d"]

/-- A discovery filesystem where walking directory d yields one regular
file whose canonicalization fails with a generic error. -/
def fsC8 : DiscFs :=
  { pathExists := fun p => p = dirD
    isFile := fun _ => false
    isDir := fun p => p = dirD
    canonicalize := fun _ => Except.error IoErrKind.other
    symlinkMetaOk := fun _ => false
    walkEntries := fun _ =>
      [Except.ok { path := [Component.normal "d", Component.normal "f.yaml"], isFileType := true }]
    globRun := fun _ => Except.ok []
    parsePath := fun _ => [] }

/-- C8 counterexample: walking d hits a file whose canonicalization
fails, and discover returns successfully with NO warning at all (and
nothing discovered): the failure is silently dropped, not demoted to a
warning on the diagnostic stream. -/
theorem discover_walk_canon_failure_silent :
    discover fdAll fsC8 [dirD] =
      Except.ok { discovered := [], seen := [], warnings := [] } := rfl

/-- A discovery filesystem for the C8 witness: walking d yields two
regular files, the first failing canonicalization, the second
canonicalizing fine. -/
def fsC8b : DiscFs :=
  { fsC8 with
    canonicalize := fun p =>
      if p = [Component.normal "d", Component.normal "g.yaml"] then
        Except.ok [Component.rootDir, Component.normal "g.yaml"]
      else Except.error IoErrKind.other
    walkEntries := fun _ =>
      [Except.ok { path := [Component.normal "d", Component.normal "f.yaml"], isFileType := true },
        Except.ok { path := [Component.normal "d", Component.normal "g.yaml"], isFileType := true }] }

/-- Witness for the amended C8: with one failing and one healthy walked
entry, traversal continues past the silent failure and discovers the
healthy file. -/
theorem canonicalize_failure_handling_witness :
    discover_directory fdAll fsC8b dirD DiscState.empty =
      { DiscState.empty with
        discovered := DiscState.empty.discovered ++
          [{ path := [Component.rootDir, Component.normal "g.yaml"]
             origin := DiscoveryOrigin.directoryWalk }]
        seen := DiscState.empty.seen ++ [[Component.rootDir, Component.normal "g.yaml"]] } := by
  exact canonicalize_failure_handling.2.2.2.1 fdAll fsC8b dirD DiscState.empty
    [Component.normal "d", Component.normal "f.yaml"]
    [Component.normal "d", Component.normal "g.yaml"]
    IoErrKind.other [Component.rootDir, Component.normal "g.yaml"]
    rfl (by decide) rfl (by decide) rfl rfl

/-- When canonicalization succeeds on every path, discover_file always
succeeds. -/
theorem discover_file_ok_of_canon_ok (fd : FileDiscovery) (fs : DiscFs) (p : FsPath)
    (o : DiscoveryOrigin) (st : DiscState)
    (hb : ∃ q, fs.canonicalize p = Except.ok q) :
    ∃ st', discover_file fd fs p o st = Except.ok st' := by
  obtain ⟨q, hq⟩ := hb
  unfold discover_file
  by_cases hinc : fd.should_include p = true
  · by_cases hmem : st.seen.contains q = true
    · have hm : q ∈ st.seen := by simpa using hmem
      exact ⟨st, by simp [hinc, hq, hm]⟩
    · have hm : q ∉ st.seen := by simpa using hmem
      refine ⟨{ st with
        discovered := st.discovered ++ [{ path := q, origin := o }]
        seen := st.seen ++ [q] }, ?_⟩
      simp [hinc, hq, hm]
  · exact ⟨st, by simp [hinc]⟩

/-- Proviso of the amended C7: every canonicalize call of the filesystem
succeeds, so no per-line discovery error can preempt the line count. -/
def CanonAllOk (fs : DiscFs) : Prop :=
  ∀ p, ∃ q, fs.canonicalize p = Except.ok q

/-- Under the proviso, a line stream whose remaining length fits under
the limit is processed successfully. -/
theorem reader_go_ok (fd : FileDiscovery) (fs : DiscFs) (hb : CanonAllOk fs) :
    ∀ (lines : List String) (count : Nat) (st : DiscState),
      count + lines.length ≤ MAX_STDIN_PATHS →
      ∃ st', discover_from_reader_go fd fs (lines.map Except.ok) count st = Except.ok st' := by
  intro lines
  induction lines with
  | nil => intro count st _; exact ⟨st, rfl⟩
  | cons l ls ih =>
    intro count st h
    simp only [List.length_cons] at h
    simp only [List.map_cons, discover_from_reader_go]
    rw [if_neg (by omega : ¬ count + 1 > MAX_STDIN_PATHS)]
    by_cases hlong : utf8Len (rustTrim l) > MAX_LINE_LENGTH
    · rw [if_pos hlong]
      exact ih (count + 1) _ (by omega)
    · rw [if_neg hlong]
      by_cases hskip : (strIsEmpty (rustTrim l) || startsWithHash (rustTrim l)) = true
      · rw [if_pos hskip]
        exact ih (count + 1) st (by omega)
      · rw [if_neg hskip]
        by_cases hf : fs.isFile (fs.parsePath (rustTrim l)) = true
        · rw [if_pos hf]
          obtain ⟨st1, hst1⟩ := discover_file_ok_of_canon_ok fd fs (fs.parsePath (rustTrim l))
            DiscoveryOrigin.stdinList st (hb _)
          rw [hst1]
          exact ih (count + 1) st1 (by omega)
        · rw [if_neg hf]
          exact ih (count + 1) st (by omega)

/-- Under the proviso, a line stream that pushes the count past the
limit is rejected with TooManyPaths. -/
theorem reader_go_over (fd : FileDiscovery) (fs : DiscFs) (hb : CanonAllOk fs) :
    ∀ (lines : List String) (count : Nat) (st : DiscState),
      count ≤ MAX_STDIN_PATHS → MAX_STDIN_PATHS < count + lines.length →
      discover_from_reader_go fd fs (lines.map Except.ok) count st =
        Except.error (DiscoveryError.tooManyPaths MAX_STDIN_PATHS) := by
  intro lines
  induction lines with
  | nil => intro count st hle hgt; simp at hgt; omega
  | cons l ls ih =>
    intro count st hle hgt
    simp only [List.length_cons] at hgt
    simp only [List.map_cons, discover_from_reader_go]
    by_cases hc : count + 1 > MAX_STDIN_PATHS
    · rw [if_pos hc]
    · rw [if_neg hc]
      by_cases hlong : utf8Len (rustTrim l) > MAX_LINE_LENGTH
      · rw [if_pos hlong]
        exact ih (count + 1) _ (by omega) (by omega)
      · rw [if_neg hlong]
        by_cases hskip : (strIsEmpty (rustTrim l) || startsWithHash (rustTrim l)) = true
        · rw [if_pos hskip]
          exact ih (count + 1) st (by omega) (by omega)
        · rw [if_neg hskip]
          by_cases hf : fs.isFile (fs.parsePath (rustTrim l)) = true
          · rw [if_pos hf]
            obtain ⟨st1, hst1⟩ := discover_file_ok_of_canon_ok fd fs (fs.parsePath (rustTrim l))
              DiscoveryOrigin.stdinList st (hb _)
            rw [hst1]
            exact ih (count + 1) st1 (by omega) (by omega)
          · rw [if_neg hf]
            exact ih (count + 1) st (by omega) (by omega)

/-- C7 as amended: provided no line triggers a per-line discovery error
(here: every canonicalization succeeds), a stream of at most
MAX_STDIN_PATHS lines — blank and comment lines counting like any other
— is accepted, and a stream of more than MAX_STDIN_PATHS lines is
rejected with TooManyPaths; a per-line discovery error would instead
abort the read with that error. -/
theorem stdin_line_limit (fd : FileDiscovery) (fs : DiscFs) (lines : List String)
    (hb : CanonAllOk fs) :
    (lines.length ≤ MAX_STDIN_PATHS →
      ∃ st', discover_from_reader fd fs (lines.map Except.ok) = Except.ok st') ∧
      (lines.length > MAX_STDIN_PATHS →
        discover_from_reader fd fs (lines.map Except.ok) =
          Except.error (DiscoveryError.tooManyPaths MAX_STDIN_PATHS)) := by
  constructor
  · intro hle
    exact reader_go_ok fd fs hb lines 0 DiscState.empty (by omega)
  · intro hgt
    exact reader_go_over fd fs hb lines 0 DiscState.empty (by omega) (by omega)

/-- A filesystem whose canonicalize always succeeds, used for the C7
witness. -/
def fsCanonOk : DiscFs :=
  { pathExists := fun _ => false
    isFile := fun _ => false
    isDir := fun _ => false
    canonicalize := fun p => Except.ok p
    symlinkMetaOk := fun _ => false
    walkEntries := fun _ => []
    globRun := fun _ => Except.ok []
    parsePath := fun s => [Component.normal s] }

/-- Witness for the amended C7: a stream of MAX_STDIN_PATHS + 1 blank
lines is rejected with TooManyPaths. -/
theorem stdin_line_limit_witness :
    discover_from_reader fdAll fsCanonOk
        ((List.replicate (MAX_STDIN_PATHS + 1) "").map Except.ok) =
      Except.error (DiscoveryError.tooManyPaths MAX_STDIN_PATHS) := by
  exact (stdin_line_limit fdAll fsCanonOk (List.replicate (MAX_STDIN_PATHS + 1) "")
    (fun p => ⟨p, rfl⟩)).2 (by rw [List.length_replicate]; omega)

/-- The filesystem of the C7 counterexample: the stdin line "f" parses
to a path that passes the is_file check but whose canonicalization fails
(the situation the classify branch of discover_file exists for), with no
symlink metadata. -/
def fsC7 : DiscFs :=
  { pathExists := fun _ => false
    isFile := fun p => p = [Component.normal "f"]
    isDir := fun _ => false
    canonicalize := fun _ => Except.error IoErrKind.notFound
    symlinkMetaOk := fun _ => false
    walkEntries := fun _ => []
    globRun := fun _ => Except.ok []
    parsePath := fun s => [Component.normal s] }

/-- A stream of MAX_STDIN_PATHS + 1 lines whose first line names the
failing file f. -/
def linesC7 : List (Except Unit String) :=
  Except.ok "f" :: List.replicate MAX_STDIN_PATHS (Except.ok "")

/-- C7 counterexample: this stream has MAX_STDIN_PATHS + 1 lines, yet
discover_from_reader does not return TooManyPaths: the first line aborts
the read with PathNotFound before the count can ever exceed the
limit. -/
theorem stdin_over_limit_not_toomany :
    linesC7.length = MAX_STDIN_PATHS + 1 ∧
      discover_from_reader fdAll fsC7 linesC7 =
        Except.error (DiscoveryError.pathNotFound [Component.normal "f"]) := by
  constructor
  · rw [show linesC7 = Except.ok "f" :: List.replicate MAX_STDIN_PATHS (Except.ok "") from rfl,
      List.length_cons, List.length_replicate]
  · unfold discover_from_reader linesC7
    generalize List.replicate MAX_STDIN_PATHS (Except.ok "") = rest
    simp only [discover_from_reader_go]
    rw [if_neg (by decide : ¬ (0 + 1 > MAX_STDIN_PATHS))]
    rw [if_neg (by decide : ¬ (utf8Len (rustTrim "f") > MAX_LINE_LENGTH))]
    rw [if_neg (by decide :
      ¬ ((strIsEmpty (rustTrim "f") || startsWithHash (rustTrim "f")) = true))]
    rw [if_pos (by decide : fsC7.isFile (fsC7.parsePath (rustTrim "f")) = true)]
    rw [show discover_file fdAll fsC7 (fsC7.parsePath (rustTrim "f"))
        DiscoveryOrigin.stdinList DiscState.empty =
        Except.error (DiscoveryError.pathNotFound [Component.normal "f"]) from rfl]

/-- A successful discover_file call with origin o only ever appends
entries of origin o. -/
theorem discover_file_origin (fd : FileDiscovery) (fs : DiscFs) (p : FsPath)
    (o : DiscoveryOrigin) (st st' : DiscState)
    (h : discover_file fd fs p o st = Except.ok st')
    (hall : ∀ d ∈ st.discovered, d.origin = o) :
    ∀ d ∈ st'.discovered, d.origin = o := by
  rcases discover_file_ok_cases fd fs p o st st' h with rfl | ⟨c, _, _, rfl⟩
  · exact hall
  · intro d hd
    dsimp only at hd
    rcases List.mem_append.mp hd with hd | hd
    · exact hall d hd
    · simp only [List.mem_singleton] at hd
      rw [hd]

/-- Every file a stream read emits carries the StdinList origin. -/
theorem reader_go_origins (fd : FileDiscovery) (fs : DiscFs) :
    ∀ (lines : List (Except Unit String)) (count : Nat) (st st' : DiscState),
      (∀ d ∈ st.discovered, d.origin = DiscoveryOrigin.stdinList) →
      discover_from_reader_go fd fs lines count st = Except.ok st' →
      ∀ d ∈ st'.discovered, d.origin = DiscoveryOrigin.stdinList := by
  intro lines
  induction lines with
  | nil =>
    intro count st st' hall h
    injection h with h
    rw [← h]
    exact hall
  | cons l ls ih =>
    intro count st st' hall h
    cases l with
    | error u => simp only [discover_from_reader_go] at h; cases h
    | ok line =>
      simp only [discover_from_reader_go] at h
      by_cases hc : count + 1 > MAX_STDIN_PATHS
      · rw [if_pos hc] at h; cases h
      · rw [if_neg hc] at h
        by_cases hlong : utf8Len (rustTrim line) > MAX_LINE_LENGTH
        · rw [if_pos hlong] at h
          exact ih (count + 1)
            { st with warnings := st.warnings ++ [Warning.lineTooLong (count + 1)] }
            st' hall h
        · rw [if_neg hlong] at h
          by_cases hskip : (strIsEmpty (rustTrim line) || startsWithHash (rustTrim line)) = true
          · rw [if_pos hskip] at h
            exact ih (count + 1) st st' hall h
          · rw [if_neg hskip] at h
            by_cases hf : fs.isFile (fs.parsePath (rustTrim line)) = true
            · rw [if_pos hf] at h
              cases hdf : discover_file fd fs (fs.parsePath (rustTrim line))
                  DiscoveryOrigin.stdinList st with
              | error e => rw [hdf] at h; cases h
              | ok st1 =>
                rw [hdf] at h
                exact ih (count + 1) st1 st'
                  (discover_file_origin fd fs _ _ st st1 hdf hall) h
            · rw [if_neg hf] at h
              exact ih (count + 1) st st' hall h

/-- C10 as amended: a stream line whose trimmed text is within the
length limit and does not name an existing regular file (or is blank or
a comment) contributes nothing at all — no DiscoveredFile, no error, no
warning — and processing continues with the next line and an incremented
count; lines longer than MAX_LINE_LENGTH bytes are instead skipped with
a warning regardless of content. Stream lines are never glob-expanded or
directory-walked: everything a stream read emits has the StdinList
origin. -/
theorem stdin_nonfile_lines_silent :
    (∀ (fd : FileDiscovery) (fs : DiscFs) (l : String) (ls : List (Except Unit String))
        (count : Nat) (st : DiscState),
      count + 1 ≤ MAX_STDIN_PATHS →
      utf8Len (rustTrim l) ≤ MAX_LINE_LENGTH →
      (strIsEmpty (rustTrim l) = true ∨ startsWithHash (rustTrim l) = true ∨
        fs.isFile (fs.parsePath (rustTrim l)) = false) →
      discover_from_reader_go fd fs (Except.ok l :: ls) count st =
        discover_from_reader_go fd fs ls (count + 1) st) ∧
      (∀ (fd : FileDiscovery) (fs : DiscFs) (lines : List (Except Unit String))
          (st' : DiscState),
        discover_from_reader fd fs lines = Except.ok st' →
        ∀ d ∈ st'.discovered, d.origin = DiscoveryOrigin.stdinList) := by
  constructor
  · intro fd fs l ls count st hcount hlen hskip
    simp only [discover_from_reader_go]
    rw [if_neg (by omega : ¬ count + 1 > MAX_STDIN_PATHS)]
    rw [if_neg (by omega : ¬ utf8Len (rustTrim l) > MAX_LINE_LENGTH)]
    by_cases hsk : (strIsEmpty (rustTrim l) || startsWithHash (rustTrim l)) = true
    · rw [if_pos hsk]
    · rw [if_neg hsk]
      have hf : fs.isFile (fs.parsePath (rustTrim l)) = false := by
        rcases hskip with h | h | h
        · exact absurd (by simp [h]) hsk
        · exact absurd (by simp [h]) hsk
        · exact h
      rw [if_neg (by simp [hf])]
  · intro fd fs lines st' h
    exact reader_go_origins fd fs lines 0 DiscState.empty st'
      (by intro d hd; cases hd) h

/-- dropWhile leaves a replicated list alone when the predicate rejects
the replicated element. -/
theorem dropWhile_replicate_of_neg (p : Char → Bool) (c : Char) (h : p c = false) :
    ∀ n, List.dropWhile p (List.replicate n c) = List.replicate n c := by
  intro n
  cases n with
  | zero => rfl
  | succ m => simp [List.replicate_succ, List.dropWhile_cons, h]

/-- The UTF-8 byte length fold over a replicated character list. -/
theorem foldl_utf8_replicate (c : Char) :
    ∀ (n a : Nat),
      List.foldl (fun n c => n + c.utf8Size) a (List.replicate n c) = a + n * c.utf8Size := by
  intro n
  induction n with
  | zero => intro a; simp
  | succ m ih =>
    intro a
    simp only [List.replicate_succ, List.foldl_cons]
    rw [ih]
    ring

/-- A 4097-byte line of x characters. -/
def lineLong : String := String.mk (List.replicate 4097 'x')

/-- The filesystem of the C10 counterexample: no path is a regular
file. -/
def fsC10 : DiscFs :=
  { pathExists := fun _ => false
    isFile := fun _ => false
    isDir := fun _ => false
    canonicalize := fun p => Except.ok p
    symlinkMetaOk := fun _ => false
    walkEntries := fun _ => []
    globRun := fun _ => Except.ok []
    parsePath := fun s => [Component.normal s] }

/-- Trimming the all-x line changes nothing. -/
theorem rustTrim_lineLong : rustTrim lineLong = lineLong := by
  unfold rustTrim lineLong
  rw [show (String.mk (List.replicate 4097 'x')).data = List.replicate 4097 'x' from rfl]
  rw [dropWhile_replicate_of_neg Char.isWhitespace 'x' (by decide), List.reverse_replicate,
    dropWhile_replicate_of_neg Char.isWhitespace 'x' (by decide), List.reverse_replicate]

/-- The all-x line is 4097 bytes long. -/
theorem utf8Len_lineLong : utf8Len lineLong = 4097 := by
  unfold utf8Len lineLong
  rw [show (String.mk (List.replicate 4097 'x')).data = List.replicate 4097 'x' from rfl]
  rw [foldl_utf8_replicate]
  rw [show ('x'.utf8Size) = 1 from by decide]

/-- C10 counterexample: a 4097-byte line that does not name an existing
regular file is not silently ignored: discover_from_reader emits a
line-too-long warning for it on the diagnostic stream (while discovering
nothing). -/
theorem stdin_long_nonfile_line_warns :
    fsC10.isFile (fsC10.parsePath (rustTrim lineLong)) = false ∧
      discover_from_reader fdAll fsC10 [Except.ok lineLong] =
        Except.ok { discovered := [], seen := [], warnings := [Warning.lineTooLong 1] } := by
  constructor
  · rfl
  · unfold discover_from_reader
    simp only [discover_from_reader_go]
    rw [if_neg (by decide : ¬ (0 + 1 > MAX_STDIN_PATHS))]
    rw [if_pos (by rw [rustTrim_lineLong, utf8Len_lineLong]; decide :
      utf8Len (rustTrim lineLong) > MAX_LINE_LENGTH)]
    rfl

/-- Witness for the amended C10: a short line naming no existing file is
skipped without any state change and processing continues. -/
theorem stdin_nonfile_lines_silent_witness :
    discover_from_reader_go fdAll fsC10 [Except.ok "x"] 0 DiscState.empty =
      discover_from_reader_go fdAll fsC10 [] (0 + 1) DiscState.empty := by
  exact stdin_nonfile_lines_silent.1 fdAll fsC10 "x" [] 0 DiscState.empty
    (by decide) (by decide) (Or.inr (Or.inr rfl))

end FastYaml
